import Mathlib

/-
  Verification of the concurrency core of vs-engine.

  Each section shallowly embeds one component of the source tree:

  * `Nodes`   — the prefetch/reorder pipeline `buffer_futures`
                (src/vsengine/_nodes.py)
  * `Hospice` — the staged reclamation coordinator
                (src/vsengine/_hospice.py)
  * `Futures` — `UnifiedFuture.then/map/catch`, `UnifiedFuture.from_future`
                and `UnifiedIterator.run_as_completed`
                (src/vsengine/_futures.py)
  * `Loops`   — `set_loop` and the no-op event loop
                (src/vsengine/loops.py)
  * `Policy`  — `_ManagedPolicy.get_current_environment` and
                `ManagedEnvironment.dispose` (src/vsengine/policy.py)

  Python futures are identified by their index in the input sequence;
  exceptions are identified by numeric codes.  Concurrency is modelled by
  step relations over explicit machine states: an event (a future
  completing, a consumer pulling an item, a collector notification) is one
  transition, and safety properties are proved for every reachable state,
  hence for every interleaving of events.
-/

set_option autoImplicit false

namespace VSEngine

namespace Nodes

/--
State of the prefetch/reorder pipeline `buffer_futures`
(src/vsengine/_nodes.py, lines 15-88).  Futures are identified by their
input index.  `finished`, `running` and `reorder` mirror the local
variables of the source; `nextIdx` is the position of the `enum_fut`
iterator (the index the next `next(enum_fut)` would return); `sidx` is the
consumer cursor; `output` records, in order, the indices yielded to the
consumer.  `completed` is ghost state recording which requested futures
have fired their done callback; the source does not store it, it is used
only to phrase the preconditions of completion events and the
buffered-but-unconsumed bound.
-/
structure BufState where
  finished : Bool
  running : Nat
  reorder : List Nat
  nextIdx : Nat
  sidx : Nat
  output : List Nat
  completed : List Nat
deriving Repr, DecidableEq

/--
`_request_next` (src/vsengine/_nodes.py, lines 30-45): if the pipeline is
finished do nothing; if the input iterator is exhausted (`nextIdx ≥ n` for
an input of `n` futures) mark it finished; otherwise request the next
future: increment `running`, record it in the reorder buffer and advance
the iterator.
-/
def request_next (n : Nat) (s : BufState) : BufState :=
  if s.finished then s
  else if n ≤ s.nextIdx then { s with finished := true }
  else { s with
    running := s.running + 1,
    reorder := s.reorder ++ [s.nextIdx],
    nextIdx := s.nextIdx + 1 }

/--
`_refill` (src/vsengine/_nodes.py, lines 60-68): keep requesting while the
pipeline is not finished, the concurrency barrier `running < prefetch`
holds and the reorder buffer is below `backlog`.
-/
def refill (n prefetch backlog : Nat) (s : BufState) : BufState :=
  if (!s.finished) ∧ s.running < prefetch ∧ s.reorder.length < backlog then
    refill n prefetch backlog (request_next n s)
  else s
termination_by (if s.finished then 0 else prefetch + 1 - s.running)
decreasing_by
  simp only [request_next]
  split
  · simp_all
  · split <;> simp_all <;> omega

/--
`_finished` (src/vsengine/_nodes.py, lines 47-58), the done callback of a
requested future `i`: decrement `running`; if the pipeline already
finished return; if the future carries an exception (`fail = true`) mark
the pipeline finished; otherwise refill.  The ghost field `completed`
records the completion.
-/
def on_finished (n prefetch backlog : Nat) (i : Nat) (fail : Bool) (s : BufState) : BufState :=
  let s1 : BufState := { s with running := s.running - 1, completed := s.completed ++ [i] }
  if s1.finished then s1
  else if fail then { s1 with finished := true }
  else refill n prefetch backlog s1

/--
One round of the consumer loop (src/vsengine/_nodes.py, lines 74-85) in
the case `sidx ∈ reorder`: take future `sidx` out of the reorder buffer,
advance `sidx`, refill, and yield the future (recorded in `output`).
-/
def consume_step (n prefetch backlog : Nat) (s : BufState) : BufState :=
  refill n prefetch backlog
    { s with
      reorder := s.reorder.erase s.sidx,
      sidx := s.sidx + 1,
      output := s.output ++ [s.sidx] }

/-- The state at entry of `buffer_futures`, before the initial `_refill()`. -/
def bufInit : BufState :=
  { finished := false, running := 0, reorder := [], nextIdx := 0,
    sidx := 0, output := [], completed := [] }

/-- The state after the initial `_refill()` call of `buffer_futures`. -/
def bufStart (n prefetch backlog : Nat) : BufState :=
  refill n prefetch backlog bufInit

/--
Events of the pipeline: a requested future `i` completes (its done
callback `_finished` runs; `fail` tells whether it completed with an
exception), or the consumer pulls the next future (only possible once
`sidx` has been requested, i.e. is in the reorder buffer).  Because the
lock serializes the callbacks, any concurrent execution of
`buffer_futures` is an interleaving of these events.  A callback firing
inline during `_refill` (the `RLock` is reentrant) is the interleaving
that places the completion event directly after its request.
-/
inductive BufStep (n prefetch backlog : Nat) : BufState → BufState → Prop
  | complete {s : BufState} (i : Nat) (fail : Bool) :
      i < s.nextIdx → i ∉ s.completed →
      BufStep n prefetch backlog s (on_finished n prefetch backlog i fail s)
  | yield_step {s : BufState} : s.sidx ∈ s.reorder →
      BufStep n prefetch backlog s (consume_step n prefetch backlog s)

/-- The states `buffer_futures` can reach, for an input of `n` futures. -/
inductive BufReach (n prefetch backlog : Nat) : BufState → Prop
  | start : BufReach n prefetch backlog (bufStart n prefetch backlog)
  | step {s s' : BufState} : BufReach n prefetch backlog s →
      BufStep n prefetch backlog s s' → BufReach n prefetch backlog s'

/--
Invariant of the pipeline: at most `prefetch` futures are in flight
(requested but not completed: that is what `running` counts), the reorder
buffer holds at most `backlog` futures, and the consumer has received
exactly the futures `0, 1, …, sidx-1` in input order.
-/
def BufInv (prefetch backlog : Nat) (s : BufState) : Prop :=
  s.running ≤ prefetch ∧ s.reorder.length ≤ backlog ∧ s.output = List.range s.sidx

theorem request_next_inv {n prefetch backlog : Nat} {s : BufState}
    (hrun : s.running < prefetch) (hlen : s.reorder.length < backlog)
    (hout : s.output = List.range s.sidx) :
    BufInv prefetch backlog (request_next n s) := by
  unfold request_next BufInv
  split
  · exact ⟨hrun.le, hlen.le, hout⟩
  · split
    · exact ⟨hrun.le, hlen.le, hout⟩
    · refine ⟨hrun, ?_, hout⟩
      simpa using hlen

theorem refill_inv {n prefetch backlog : Nat} {s : BufState}
    (h : BufInv prefetch backlog s) :
    BufInv prefetch backlog (refill n prefetch backlog s) := by
  induction s using refill.induct n prefetch backlog with
  | case1 s hc ih =>
    rw [refill, if_pos hc]
    exact ih (request_next_inv hc.2.1 hc.2.2 h.2.2)
  | case2 s hc =>
    rw [refill, if_neg hc]
    exact h

theorem on_finished_inv {n prefetch backlog : Nat} {s : BufState}
    (i : Nat) (fail : Bool) (h : BufInv prefetch backlog s) :
    BufInv prefetch backlog (on_finished n prefetch backlog i fail s) := by
  obtain ⟨h1, h2, h3⟩ := h
  have hbase : BufInv prefetch backlog
      { s with running := s.running - 1, completed := s.completed ++ [i] } :=
    ⟨Nat.le_trans (Nat.sub_le _ _) h1, h2, h3⟩
  unfold on_finished
  dsimp only
  split
  · exact hbase
  · split
    · exact ⟨hbase.1, hbase.2.1, hbase.2.2⟩
    · exact refill_inv hbase

theorem consume_step_inv {n prefetch backlog : Nat} {s : BufState}
    (h : BufInv prefetch backlog s) :
    BufInv prefetch backlog (consume_step n prefetch backlog s) := by
  obtain ⟨h1, h2, h3⟩ := h
  unfold consume_step
  apply refill_inv
  refine ⟨h1, Nat.le_trans (List.length_erase_le _ _) h2, ?_⟩
  simp [h3, List.range_succ]

theorem bufReach_inv {n prefetch backlog : Nat} {s : BufState}
    (h : BufReach n prefetch backlog s) : BufInv prefetch backlog s := by
  induction h with
  | start => exact refill_inv ⟨Nat.zero_le _, Nat.zero_le _, rfl⟩
  | step _ hstep ih =>
    cases hstep with
    | complete i fail _ _ => exact on_finished_inv i fail ih
    | yield_step _ => exact consume_step_inv ih

/--
C1: in every state `buffer_futures` can reach — for any input length, any
completion order and any interleaving of completions with consumer pulls —
the consumer has received exactly the input futures `0, …, sidx-1` in
input (submission) order, the number of in-flight futures (requested but
not completed, the source's `running`) is at most `prefetch`, and the
number of completed-but-unconsumed futures in the reorder buffer is at
most `backlog` (indeed the whole reorder buffer is).
-/
theorem c1_buffer_futures_order_and_bounds (n prefetch backlog : Nat) (s : BufState)
    (h : BufReach n prefetch backlog s) :
    s.output = List.range s.sidx ∧
    s.running ≤ prefetch ∧
    (s.reorder.filter (fun i => s.completed.contains i)).length ≤ backlog ∧
    s.reorder.length ≤ backlog := by
  obtain ⟨h1, h2, h3⟩ := bufReach_inv h
  exact ⟨h3, h1, Nat.le_trans (List.length_filter_le _ _) h2, h2⟩

/-- Witness for C1 at the concrete start state of a 2-future input. -/
theorem c1_buffer_futures_order_and_bounds_witness :
    (bufStart 2 1 1).output = List.range (bufStart 2 1 1).sidx ∧
    (bufStart 2 1 1).running ≤ 1 ∧
    ((bufStart 2 1 1).reorder.filter
      (fun i => (bufStart 2 1 1).completed.contains i)).length ≤ 1 ∧
    (bufStart 2 1 1).reorder.length ≤ 1 :=
  c1_buffer_futures_order_and_bounds 2 1 1 (bufStart 2 1 1) BufReach.start

end Nodes

namespace Hospice

/--
State of the Hospice (src/vsengine/_hospice.py).  Idents are the values of
the module-level counter `refctr`; `cores` lists the idents whose native
core the registry still holds (the keys of the source's `cores` dict, in
insertion order); `stage1`, `stage2_to_add` and `stage2` mirror the
module-level sets; `warned` logs the idents warned about
(`logger.warning` / `logger.warn` calls) and `released` logs the idents
whose core has been popped from the registry and dropped (appended to
`garbage`, which is cleared).
-/
structure HospState where
  refctr : Nat
  cores : List Nat
  stage1 : List Nat
  stage2_to_add : List Nat
  stage2 : List Nat
  warned : List Nat
  released : List Nat
deriving Repr, DecidableEq

/-- The module state right after import: all registries empty. -/
def hospInit : HospState :=
  { refctr := 0, cores := [], stage1 := [], stage2_to_add := [],
    stage2 := [], warned := [], released := [] }

/--
`admit_environment` (src/vsengine/_hospice.py, lines 25-36): take a fresh
ident from `refctr` and store the core under it (the weak observer
`refnanny[ident]` is represented by the death events below).
-/
def admit_environment (s : HospState) : HospState :=
  { s with refctr := s.refctr + 1, cores := s.cores ++ [s.refctr] }

/--
`_add_tostage1` (src/vsengine/_hospice.py, lines 42-45): the weak
reference on the environment fired — the environment died — so its ident
enters stage 1.
-/
def add_tostage1 (i : Nat) (s : HospState) : HospState :=
  { s with stage1 := s.stage1 ++ [i] }

/--
`_collectstage1` (src/vsengine/_hospice.py, lines 48-59) at a collector
notification with phase `stop`: every stage-1 ident whose core is still
externally held (`_is_core_still_used`, abstracted as the predicate
`used`) stays in stage 1 with a warning; the others move to the
`stage2_to_add` queue.
-/
def collectstage1 (used : Nat → Bool) (s : HospState) : HospState :=
  { s with
    stage1 := s.stage1.filter (fun i => used i),
    warned := s.warned ++ s.stage1.filter (fun i => used i),
    stage2_to_add := s.stage2_to_add ++ s.stage1.filter (fun i => !used i) }

/--
`_collectstage2` (src/vsengine/_hospice.py, lines 62-82) at a collector
notification with phase `stop`: every stage-2 ident still externally held
stays with a warning; the others leave stage 2, their cores are popped
from the registry and dropped.  Afterwards the `stage2_to_add` queue is
merged into stage 2 and emptied.
-/
def collectstage2 (used : Nat → Bool) (s : HospState) : HospState :=
  let rel := s.stage2.filter (fun i => !used i)
  { s with
    stage2 := s.stage2.filter (fun i => used i) ++ s.stage2_to_add,
    stage2_to_add := [],
    warned := s.warned ++ s.stage2.filter (fun i => used i),
    cores := s.cores.filter (fun c => !(decide (c ∈ rel))),
    released := s.released ++ rel }

/--
One "collector cycle completed" notification.  `gc.callbacks` holds
`[_collectstage2, _collectstage1]` in that order (src/vsengine/_hospice.py,
lines 85-86), so stage 2 is processed before stage 1 on every cycle.
-/
def gc_cycle (used : Nat → Bool) (s : HospState) : HospState :=
  collectstage1 used (collectstage2 used s)

/--
The canonical scenario of the claim: one environment admitted (ident 0),
its last reference dropped (the weak observer fires), then collector-cycle
notifications during which the core has no external holders.
-/
def c2_two_cycles : HospState :=
  gc_cycle (fun _ => false) (gc_cycle (fun _ => false)
    (add_tostage1 0 (admit_environment hospInit)))

/--
C2, counterexample: after the environment has died, two collector-cycle
notifications with no external holders do NOT release the core — ident 0
is still in the registry, unreleased (it sits in stage 2); only a third
notification releases it.
-/
theorem c2_counterexample :
    0 ∈ c2_two_cycles.cores ∧ 0 ∉ c2_two_cycles.released ∧
    0 ∈ c2_two_cycles.stage2 ∧
    0 ∈ (gc_cycle (fun _ => false) c2_two_cycles).released ∧
    0 ∉ (gc_cycle (fun _ => false) c2_two_cycles).cores := by
  decide

/--
C2, amended: once the environment has died (its ident is in stage 1),
three collector-cycle notifications during which the core has no external
holders release the core — the first moves the ident to the staged queue,
the second into stage 2, the third removes it from the registry and drops
it.  If an external holder still exists when an entry is checked (in
stage 1 or stage 2), the entry is retained and a warning is logged
instead of being released.
-/
theorem c2_hospice_release_after_three_cycles
    (s : HospState) (i : Nat) (u1 u2 u3 : Nat → Bool)
    (hs1 : i ∈ s.stage1)
    (hu1 : u1 i = false) (hu2 : u2 i = false) (hu3 : u3 i = false) :
    (i ∈ (gc_cycle u3 (gc_cycle u2 (gc_cycle u1 s))).released ∧
     i ∉ (gc_cycle u3 (gc_cycle u2 (gc_cycle u1 s))).cores) ∧
    (∀ (t : HospState) (used : Nat → Bool) (j : Nat),
       j ∈ t.stage1 → used j = true →
       j ∈ (gc_cycle used t).stage1 ∧ j ∈ (gc_cycle used t).warned ∧
       (j ∉ t.released → j ∉ t.stage2 → j ∉ (gc_cycle used t).released)) ∧
    (∀ (t : HospState) (used : Nat → Bool) (j : Nat),
       j ∈ t.stage2 → used j = true →
       j ∈ (gc_cycle used t).stage2 ∧ j ∈ (gc_cycle used t).warned ∧
       (j ∈ t.cores → j ∈ (gc_cycle used t).cores) ∧
       (j ∉ t.released → j ∉ (gc_cycle used t).released)) := by
  refine ⟨⟨?_, ?_⟩, ?_, ?_⟩
  · simp [gc_cycle, collectstage1, collectstage2, hu1, hu2, hu3]
    tauto
  · simp [gc_cycle, collectstage1, collectstage2, hu1, hu2, hu3]
    tauto
  · intro t used j hj hu
    refine ⟨?_, ?_, ?_⟩
    · simp [gc_cycle, collectstage1, collectstage2, hj, hu]
    · simp [gc_cycle, collectstage1, collectstage2, hj, hu]
    · intro hrel hst2
      simp [gc_cycle, collectstage1, collectstage2, hu]
      tauto
  · intro t used j hj hu
    refine ⟨?_, ?_, ?_, ?_⟩
    · simp [gc_cycle, collectstage1, collectstage2, hj, hu]
    · simp [gc_cycle, collectstage1, collectstage2, hj, hu]
    · intro hc
      simp [gc_cycle, collectstage1, collectstage2, hc, hu]
    · intro hrel
      simp [gc_cycle, collectstage1, collectstage2, hu]
      tauto

/-- Witness for C2 (amended) at the canonical concrete scenario. -/
theorem c2_hospice_release_after_three_cycles_witness :
    (0 ∈ (gc_cycle (fun _ => false) (gc_cycle (fun _ => false)
        (gc_cycle (fun _ => false) (add_tostage1 0 (admit_environment hospInit))))).released ∧
     0 ∉ (gc_cycle (fun _ => false) (gc_cycle (fun _ => false)
        (gc_cycle (fun _ => false) (add_tostage1 0 (admit_environment hospInit))))).cores) ∧
    (∀ (t : HospState) (used : Nat → Bool) (j : Nat),
       j ∈ t.stage1 → used j = true →
       j ∈ (gc_cycle used t).stage1 ∧ j ∈ (gc_cycle used t).warned ∧
       (j ∉ t.released → j ∉ t.stage2 → j ∉ (gc_cycle used t).released)) ∧
    (∀ (t : HospState) (used : Nat → Bool) (j : Nat),
       j ∈ t.stage2 → used j = true →
       j ∈ (gc_cycle used t).stage2 ∧ j ∈ (gc_cycle used t).warned ∧
       (j ∈ t.cores → j ∈ (gc_cycle used t).cores) ∧
       (j ∉ t.released → j ∉ (gc_cycle used t).released)) :=
  c2_hospice_release_after_three_cycles
    (add_tostage1 0 (admit_environment hospInit)) 0
    (fun _ => false) (fun _ => false) (fun _ => false)
    (by decide) rfl rfl rfl

end Hospice

namespace Futures

/-- A settled future outcome: resolved with a value or rejected with an
exception (exceptions are identified by numeric codes). -/
inductive Outcome (α : Type) where
  | ok (v : α)
  | err (e : Nat)
deriving Repr, DecidableEq

/-- One Python callback invocation's behaviour: return a value or raise. -/
inductive CbRun (β : Type) where
  | ret (v : β)
  | raises (e : Nat)
deriving Repr, DecidableEq

/-- The body of `_run_cb` in `UnifiedFuture.then`
(src/vsengine/_futures.py, lines 74-80): run the callback; a raised
exception rejects the derived future, a returned value resolves it. -/
def run_cb {β : Type} (r : CbRun β) : Outcome β :=
  match r with
  | .ret v => .ok v
  | .raises e => .err e

/--
`UnifiedFuture.then` (src/vsengine/_futures.py, lines 68-95) evaluated on
an already settled future `self` (its `_done` callback then runs inline,
which is the situation of the claim): dispatch on the outcome, invoke the
matching callback if present through `_run_cb`, otherwise forward the
outcome to the derived future unchanged.  Besides the derived future's
outcome it returns how many times `success_cb` and `err_cb` were invoked,
so that "without calling f" is expressible.  The embedding is a total
function: a callback exception can only surface as a rejected outcome,
never synchronously.
-/
def thenF {α : Type} (self : Outcome α)
    (success_cb : Option (α → CbRun α)) (err_cb : Option (Nat → CbRun α)) :
    Outcome α × Nat × Nat :=
  match self with
  | .err e =>
    match err_cb with
    | some cb => (run_cb (cb e), 0, 1)
    | none => (.err e, 0, 0)
  | .ok v =>
    match success_cb with
    | some cb => (run_cb (cb v), 1, 0)
    | none => (.ok v, 0, 0)

/-- `UnifiedFuture.map` (src/vsengine/_futures.py, lines 97-98):
`then(cb, None)`. -/
def mapF {α : Type} (self : Outcome α) (cb : α → CbRun α) : Outcome α × Nat × Nat :=
  thenF self (some cb) none

/-- `UnifiedFuture.catch` (src/vsengine/_futures.py, lines 100-101):
`then(None, cb)`.  (`catch` is a Lean keyword, hence the suffix.) -/
def catchF {α : Type} (self : Outcome α) (cb : Nat → CbRun α) : Outcome α × Nat × Nat :=
  thenF self none (some cb)

/--
C5: on a future rejected with exception `e`, `map f` produces a future
rejected with the same `e` and never invokes `f`; `catch g` invokes `g`
exactly once and resolves to `g`'s return value, or — when `g` raises — is
rejected with `g`'s new exception; neither combinator throws
synchronously (the embedding is total, callback exceptions appear only as
rejected outcomes).
-/
theorem c5_rejected_map_catch {α : Type} (e : Nat) (f : α → CbRun α)
    (g : Nat → CbRun α) (v : α) (e2 : Nat) :
    mapF (Outcome.err e : Outcome α) f = (Outcome.err e, 0, 0) ∧
    catchF (Outcome.err e : Outcome α) g = (run_cb (g e), 0, 1) ∧
    catchF (Outcome.err e : Outcome α) (fun _ => CbRun.ret v) = (Outcome.ok v, 0, 1) ∧
    catchF (Outcome.err e : Outcome α) (fun _ => CbRun.raises e2) = (Outcome.err e2, 0, 1) :=
  ⟨rfl, rfl, rfl, rfl⟩

/-- A Python future object as `UnifiedFuture.from_future` sees it: an
object identity and whether `isinstance(future, cls)` holds for the class
the classmethod is called on. -/
structure PyFut where
  uid : Nat
  isUnified : Bool
deriving Repr, DecidableEq

/-- `UnifiedFuture.from_future` (src/vsengine/_futures.py, lines 31-43): a
future that is already an instance of the calling class is returned
as-is; otherwise a fresh future of the class (identity `fresh`) is
created and chained to the argument via `add_done_callback`. -/
def from_future (fresh : Nat) (f : PyFut) : PyFut :=
  if f.isUnified then f else { uid := fresh, isUnified := true }

/--
C10: `from_future` returns an already-unified future unchanged — the very
same object — so applying it twice equals applying it once and chaining
never adds a layer of indirection.
-/
theorem c10_from_future_idempotent (a b : Nat) (f g : PyFut)
    (h : f.isUnified = true) :
    from_future a f = f ∧
    from_future b (from_future a g) = from_future a g := by
  constructor
  · simp [from_future, h]
  · by_cases hg : g.isUnified = true <;> simp [from_future, hg]

/-- Witness for C10 at concrete futures. -/
theorem c10_from_future_idempotent_witness :
    (PyFut.mk 5 true).isUnified = true ∧
    from_future 1 (PyFut.mk 5 true) = PyFut.mk 5 true ∧
    from_future 2 (from_future 1 (PyFut.mk 7 false)) = from_future 1 (PyFut.mk 7 false) :=
  ⟨rfl, (c10_from_future_idempotent 1 2 (PyFut.mk 5 true) (PyFut.mk 7 false) rfl).1,
    (c10_from_future_idempotent 1 2 (PyFut.mk 5 true) (PyFut.mk 7 false) rfl).2⟩

/-- Result of one invocation of the user callback in `run_as_completed`:
raise an exception, return `None`, or return a value of the given
truthiness. -/
inductive CbRes where
  | raises (e : Nat)
  | retNone
  | retVal (truthy : Bool)
deriving Repr, DecidableEq

/--
State of one `UnifiedIterator.run_as_completed` run
(src/vsengine/_futures.py, lines 156-248) under the no-op event loop.
Futures are identified by their position in `future_iterable`;
`nextToPull` is the iterator cursor; `waitingOn = some i` means future
`i` was pulled while not yet done and `_continuation_in_foreign_thread`
is registered as its done callback; `log` records, in order, the indices
on which the user callback has been invoked; `stateResult` is the `state`
future (`none` = pending, `some none` = resolved with None, `some (some
e)` = rejected with exception `e`); `completed` records which futures
have completed.  External cancellation of the state future is outside the
claims and not modelled.
-/
structure RacState where
  nextToPull : Nat
  waitingOn : Option Nat
  log : List Nat
  stateResult : Option (Option Nat)
  completed : List Nat
deriving Repr, DecidableEq

/--
`_run_single_callback` (src/vsengine/_futures.py, lines 225-242): if the
state future is already settled, do nothing and stop; otherwise invoke
the user callback on future `i` (recorded in `log`): an exception rejects
the state future and stops; a return value that `is None or
bool(result)` continues; any other (falsy, non-None) return resolves the
state future with None and stops.
-/
def run_single_callback (cb : Nat → CbRes) (i : Nat) (s : RacState) : Bool × RacState :=
  if s.stateResult.isSome then (false, s)
  else
    let s1 : RacState := { s with log := s.log ++ [i] }
    match cb i with
    | .raises e => (false, { s1 with stateResult := some (some e) })
    | .retNone => (true, s1)
    | .retVal b =>
      if b then (true, s1)
      else (false, { s1 with stateResult := some none })

/--
The loop of `_run_callbacks` (src/vsengine/_futures.py, lines 183-209)
under the no-op loop, where `next_cycle()` always returns the resolved
`DONE` future without exception, so after each item the loop continues
directly.  `fuel` counts the futures the iterator can still yield and is
always called with `n - nextToPull` for an `n`-future source, so `fuel =
0` is exactly the `StopIteration` case, which resolves the state future.
With fuel left: if the state future is settled, stop; pull the next
future; if it is already done, run the callback on it and (if the
callback said continue) loop; if it is not yet done, register the
continuation (`waitingOn`) and return.
-/
def run_callbacks_go (cb : Nat → CbRes) : Nat → RacState → RacState
  | 0, s =>
    if s.stateResult.isSome then s
    else { s with stateResult := some none }
  | fuel + 1, s =>
    if s.stateResult.isSome then s
    else if s.nextToPull ∈ s.completed then
      let r := run_single_callback cb s.nextToPull { s with nextToPull := s.nextToPull + 1 }
      if r.1 then run_callbacks_go cb fuel r.2 else r.2
    else
      { s with waitingOn := some s.nextToPull, nextToPull := s.nextToPull + 1 }

/-- `_run_callbacks` over an `n`-future source: run the loop with the
number of futures not yet pulled as fuel. -/
def run_callbacks (cb : Nat → CbRes) (n : Nat) (s : RacState) : RacState :=
  run_callbacks_go cb (n - s.nextToPull) s

/--
Future `i` completes: its done callbacks fire on the completing thread.
The machine marks `i` completed; if `run_as_completed` was waiting on
`i`, `_continuation_in_foreign_thread` runs (under the no-op loop,
`from_thread` executes `_continuation` inline, src/vsengine/_futures.py
lines 217-223): the callback runs on `i` and, if it said continue,
`_run_callbacks` resumes.
-/
def complete_future (cb : Nat → CbRes) (n : Nat) (i : Nat) (s : RacState) : RacState :=
  let s1 : RacState := { s with completed := s.completed ++ [i] }
  if s1.waitingOn = some i then
    let s2 : RacState := { s1 with waitingOn := none }
    let r := run_single_callback cb i s2
    if r.1 then run_callbacks cb n r.2 else r.2
  else s1

/-- The machine state when `run_as_completed` is entered. -/
def racInit : RacState :=
  { nextToPull := 0, waitingOn := none, log := [], stateResult := none, completed := [] }

/--
A whole run over `n` initially pending futures: `run_as_completed` is
invoked (the initial `get_loop().from_thread(_run_callbacks)` runs inline
under the no-op loop), after which the futures complete one by one in the
order given by `trace` — `trace` IS the completion order.
-/
def run_trace (cb : Nat → CbRes) (n : Nat) (trace : List Nat) : RacState :=
  trace.foldl (fun s i => complete_future cb n i s) (run_callbacks cb n racInit)

/-- A callback result on which `_run_single_callback` continues:
`None` or a truthy value. -/
def ContRes (r : CbRes) : Prop := r = CbRes.retNone ∨ r = CbRes.retVal true

/--
The run invariant: the callback-invocation log is exactly
`[0, 1, …, len-1]` — the submission (iterator) order; the callback is
invoked only on completed futures; while the state future is pending
every logged invocation returned a continue value; and a falsy non-None
return is the last invocation and resolved the state future with None.
-/
def RacCore (cb : Nat → CbRes) (s : RacState) : Prop :=
  s.log = List.range s.log.length ∧
  (∀ i ∈ s.log, i ∈ s.completed) ∧
  (s.stateResult = none → ∀ i ∈ s.log, ContRes (cb i)) ∧
  (∀ i ∈ s.log, cb i = CbRes.retVal false →
    s.log.getLast? = some i ∧ s.stateResult = some none)

/-- Entry states of `_run_callbacks`: no continuation registered, and the
invocation count equals the iterator position. -/
def RacEntry (cb : Nat → CbRes) (s : RacState) : Prop :=
  RacCore cb s ∧
  (s.stateResult = none → s.waitingOn = none ∧ s.log.length = s.nextToPull)

/-- States between events: if the run is still pending it is waiting on
the future it pulled last. -/
def RacStable (cb : Nat → CbRes) (s : RacState) : Prop :=
  RacCore cb s ∧
  (s.stateResult = none →
    ∃ w, s.waitingOn = some w ∧ s.log.length = w ∧ s.nextToPull = w + 1)

theorem contres_not_false {r : CbRes} (h : ContRes r) : r ≠ CbRes.retVal false := by
  rcases h with h | h <;> simp [h]

theorem rsc_eq_settled (cb : Nat → CbRes) (i : Nat) (s : RacState) (v : Option Nat)
    (hstate : s.stateResult = some v) :
    run_single_callback cb i s = (false, s) := by
  simp [run_single_callback, hstate]

theorem rsc_eq_raises (cb : Nat → CbRes) (i : Nat) (s : RacState) (e : Nat)
    (hstate : s.stateResult = none) (hcb : cb i = CbRes.raises e) :
    run_single_callback cb i s =
      (false, { s with log := s.log ++ [i], stateResult := some (some e) }) := by
  simp [run_single_callback, hstate, hcb]

theorem rsc_eq_retNone (cb : Nat → CbRes) (i : Nat) (s : RacState)
    (hstate : s.stateResult = none) (hcb : cb i = CbRes.retNone) :
    run_single_callback cb i s = (true, { s with log := s.log ++ [i] }) := by
  simp [run_single_callback, hstate, hcb]

theorem rsc_eq_truthy (cb : Nat → CbRes) (i : Nat) (s : RacState)
    (hstate : s.stateResult = none) (hcb : cb i = CbRes.retVal true) :
    run_single_callback cb i s = (true, { s with log := s.log ++ [i] }) := by
  simp [run_single_callback, hstate, hcb]

theorem rsc_eq_falsy (cb : Nat → CbRes) (i : Nat) (s : RacState)
    (hstate : s.stateResult = none) (hcb : cb i = CbRes.retVal false) :
    run_single_callback cb i s =
      (false, { s with log := s.log ++ [i], stateResult := some none }) := by
  simp [run_single_callback, hstate, hcb]

theorem log_snoc_range {l : List Nat} {i : Nat}
    (ha : l = List.range l.length) (hlen : l.length = i) :
    l ++ [i] = List.range (l ++ [i]).length := by
  rw [List.length_append, List.length_singleton, hlen, List.range_succ, ← hlen, ← ha]

theorem core_after_raises (cb : Nat → CbRes) (i : Nat) (s : RacState) (e : Nat)
    (hcore : RacCore cb s) (hstate : s.stateResult = none)
    (hlen : s.log.length = i) (hcomp : i ∈ s.completed)
    (hcb : cb i = CbRes.raises e) :
    RacCore cb { s with log := s.log ++ [i], stateResult := some (some e) } := by
  obtain ⟨ha, hb, hc, _⟩ := hcore
  refine ⟨log_snoc_range ha hlen, ?_, by simp, ?_⟩
  · intro j hj
    rcases List.mem_append.1 hj with hj | hj
    · exact hb j hj
    · rw [List.mem_singleton.1 hj]; exact hcomp
  · intro j hj hfalse
    rcases List.mem_append.1 hj with hj | hj
    · exact absurd hfalse (contres_not_false (hc hstate j hj))
    · rw [List.mem_singleton.1 hj] at hfalse
      rw [hcb] at hfalse; exact absurd hfalse (by simp)

theorem core_after_cont (cb : Nat → CbRes) (i : Nat) (s : RacState)
    (hcore : RacCore cb s) (hstate : s.stateResult = none)
    (hlen : s.log.length = i) (hcomp : i ∈ s.completed) (hcont : ContRes (cb i)) :
    RacCore cb { s with log := s.log ++ [i] } := by
  obtain ⟨ha, hb, hc, _⟩ := hcore
  refine ⟨log_snoc_range ha hlen, ?_, ?_, ?_⟩
  · intro j hj
    rcases List.mem_append.1 hj with hj | hj
    · exact hb j hj
    · rw [List.mem_singleton.1 hj]; exact hcomp
  · intro _ j hj
    rcases List.mem_append.1 hj with hj | hj
    · exact hc hstate j hj
    · rw [List.mem_singleton.1 hj]; exact hcont
  · intro j hj hfalse
    rcases List.mem_append.1 hj with hj | hj
    · exact absurd hfalse (contres_not_false (hc hstate j hj))
    · have hji := List.mem_singleton.1 hj
      rw [hji] at hfalse
      exact absurd hfalse (contres_not_false hcont)

theorem core_after_falsy (cb : Nat → CbRes) (i : Nat) (s : RacState)
    (hcore : RacCore cb s) (hstate : s.stateResult = none)
    (hlen : s.log.length = i) (hcomp : i ∈ s.completed) :
    RacCore cb { s with log := s.log ++ [i], stateResult := some none } := by
  obtain ⟨ha, hb, hc, _⟩ := hcore
  refine ⟨log_snoc_range ha hlen, ?_, by simp, ?_⟩
  · intro j hj
    rcases List.mem_append.1 hj with hj | hj
    · exact hb j hj
    · rw [List.mem_singleton.1 hj]; exact hcomp
  · intro j hj hfalse
    rcases List.mem_append.1 hj with hj | hj
    · exact absurd hfalse (contres_not_false (hc hstate j hj))
    · rw [List.mem_singleton.1 hj]
      exact ⟨List.getLast?_concat _, rfl⟩

theorem core_completed_mono (cb : Nat → CbRes) (s : RacState) (i : Nat)
    (h : RacCore cb s) :
    RacCore cb { s with completed := s.completed ++ [i], waitingOn := none } := by
  obtain ⟨ha, hb, hc, hd⟩ := h
  exact ⟨ha, fun j hj => List.mem_append_left _ (hb j hj), hc, hd⟩

theorem go_zero_none (cb : Nat → CbRes) (s : RacState)
    (hstate : s.stateResult = none) :
    run_callbacks_go cb 0 s = { s with stateResult := some none } := by
  simp [run_callbacks_go, hstate]

theorem go_zero_settled (cb : Nat → CbRes) (s : RacState) (v : Option Nat)
    (hstate : s.stateResult = some v) :
    run_callbacks_go cb 0 s = s := by
  simp [run_callbacks_go, hstate]

theorem go_succ_settled (cb : Nat → CbRes) (fuel : Nat) (s : RacState) (v : Option Nat)
    (hstate : s.stateResult = some v) :
    run_callbacks_go cb (fuel + 1) s = s := by
  simp [run_callbacks_go, hstate]

theorem go_succ_notdone (cb : Nat → CbRes) (fuel : Nat) (s : RacState)
    (hstate : s.stateResult = none) (hdone : s.nextToPull ∉ s.completed) :
    run_callbacks_go cb (fuel + 1) s =
      { s with waitingOn := some s.nextToPull, nextToPull := s.nextToPull + 1 } := by
  simp [run_callbacks_go, hstate, hdone]

theorem go_succ_raises (cb : Nat → CbRes) (fuel : Nat) (s : RacState) (e : Nat)
    (hstate : s.stateResult = none) (hdone : s.nextToPull ∈ s.completed)
    (hcb : cb s.nextToPull = CbRes.raises e) :
    run_callbacks_go cb (fuel + 1) s =
      { s with nextToPull := s.nextToPull + 1, log := s.log ++ [s.nextToPull],
               stateResult := some (some e) } := by
  simp [run_callbacks_go, run_single_callback, hstate, hdone, hcb]

theorem go_succ_retNone (cb : Nat → CbRes) (fuel : Nat) (s : RacState)
    (hstate : s.stateResult = none) (hdone : s.nextToPull ∈ s.completed)
    (hcb : cb s.nextToPull = CbRes.retNone) :
    run_callbacks_go cb (fuel + 1) s =
      run_callbacks_go cb fuel
        { s with nextToPull := s.nextToPull + 1, log := s.log ++ [s.nextToPull] } := by
  simp [run_callbacks_go, run_single_callback, hstate, hdone, hcb]

theorem go_succ_truthy (cb : Nat → CbRes) (fuel : Nat) (s : RacState)
    (hstate : s.stateResult = none) (hdone : s.nextToPull ∈ s.completed)
    (hcb : cb s.nextToPull = CbRes.retVal true) :
    run_callbacks_go cb (fuel + 1) s =
      run_callbacks_go cb fuel
        { s with nextToPull := s.nextToPull + 1, log := s.log ++ [s.nextToPull] } := by
  simp [run_callbacks_go, run_single_callback, hstate, hdone, hcb]

theorem go_succ_falsy (cb : Nat → CbRes) (fuel : Nat) (s : RacState)
    (hstate : s.stateResult = none) (hdone : s.nextToPull ∈ s.completed)
    (hcb : cb s.nextToPull = CbRes.retVal false) :
    run_callbacks_go cb (fuel + 1) s =
      { s with nextToPull := s.nextToPull + 1, log := s.log ++ [s.nextToPull],
               stateResult := some none } := by
  simp [run_callbacks_go, run_single_callback, hstate, hdone, hcb]

theorem cf_not_waiting (cb : Nat → CbRes) (n : Nat) (i : Nat) (s : RacState)
    (hw : ¬ s.waitingOn = some i) :
    complete_future cb n i s = { s with completed := s.completed ++ [i] } := by
  simp [complete_future, hw]

theorem cf_waiting_settled (cb : Nat → CbRes) (n : Nat) (i : Nat) (s : RacState) (v : Option Nat)
    (hw : s.waitingOn = some i) (hstate : s.stateResult = some v) :
    complete_future cb n i s =
      { s with completed := s.completed ++ [i], waitingOn := none } := by
  simp [complete_future, hw, run_single_callback, hstate]

theorem cf_waiting_raises (cb : Nat → CbRes) (n : Nat) (i : Nat) (s : RacState) (e : Nat)
    (hw : s.waitingOn = some i) (hstate : s.stateResult = none)
    (hcb : cb i = CbRes.raises e) :
    complete_future cb n i s =
      { s with completed := s.completed ++ [i], waitingOn := none,
               log := s.log ++ [i], stateResult := some (some e) } := by
  simp [complete_future, hw, run_single_callback, hstate, hcb]

theorem cf_waiting_retNone (cb : Nat → CbRes) (n : Nat) (i : Nat) (s : RacState)
    (hw : s.waitingOn = some i) (hstate : s.stateResult = none)
    (hcb : cb i = CbRes.retNone) :
    complete_future cb n i s =
      run_callbacks cb n
        { s with completed := s.completed ++ [i], waitingOn := none, log := s.log ++ [i] } := by
  simp [complete_future, hw, run_single_callback, hstate, hcb]

theorem cf_waiting_truthy (cb : Nat → CbRes) (n : Nat) (i : Nat) (s : RacState)
    (hw : s.waitingOn = some i) (hstate : s.stateResult = none)
    (hcb : cb i = CbRes.retVal true) :
    complete_future cb n i s =
      run_callbacks cb n
        { s with completed := s.completed ++ [i], waitingOn := none, log := s.log ++ [i] } := by
  simp [complete_future, hw, run_single_callback, hstate, hcb]

theorem cf_waiting_falsy (cb : Nat → CbRes) (n : Nat) (i : Nat) (s : RacState)
    (hw : s.waitingOn = some i) (hstate : s.stateResult = none)
    (hcb : cb i = CbRes.retVal false) :
    complete_future cb n i s =
      { s with completed := s.completed ++ [i], waitingOn := none,
               log := s.log ++ [i], stateResult := some none } := by
  simp [complete_future, hw, run_single_callback, hstate, hcb]

theorem core_ignores (cb : Nat → CbRes) (s t : RacState)
    (hlog : t.log = s.log) (hcomp : t.completed = s.completed)
    (hstate : t.stateResult = s.stateResult) (h : RacCore cb s) : RacCore cb t := by
  obtain ⟨ha, hb, hc, hd⟩ := h
  unfold RacCore
  rw [hlog, hcomp, hstate]
  exact ⟨ha, hb, hc, hd⟩

theorem core_resolve (cb : Nat → CbRes) (s t : RacState)
    (hlog : t.log = s.log) (hsnone : s.stateResult = none)
    (htres : t.stateResult = some none)
    (hcomp : t.completed = s.completed) (h : RacCore cb s) : RacCore cb t := by
  obtain ⟨ha, hb, hc, _⟩ := h
  unfold RacCore
  rw [hlog, hcomp, htres]
  refine ⟨ha, hb, by simp, ?_⟩
  intro j hj hfalse
  exact absurd hfalse (contres_not_false (hc hsnone j hj))

theorem stable_of_settled (cb : Nat → CbRes) (t : RacState) (v : Option Nat)
    (hstate : t.stateResult = some v) (h : RacCore cb t) : RacStable cb t := by
  refine ⟨h, ?_⟩
  intro hn
  rw [hstate] at hn
  exact absurd hn (by simp)

theorem go_preserves (cb : Nat → CbRes) (fuel : Nat) :
    ∀ s : RacState, RacEntry cb s → RacStable cb (run_callbacks_go cb fuel s) := by
  induction fuel with
  | zero =>
    intro s hs
    obtain ⟨hcore, hentry⟩ := hs
    rcases hstate : s.stateResult with _ | v
    · rw [go_zero_none cb s hstate]
      exact stable_of_settled cb _ none rfl
        (core_resolve cb s _ rfl hstate rfl rfl hcore)
    · rw [go_zero_settled cb s v hstate]
      exact stable_of_settled cb s v hstate hcore
  | succ fuel ih =>
    intro s hs
    obtain ⟨hcore, hentry⟩ := hs
    rcases hstate : s.stateResult with _ | v
    · obtain ⟨hwait, hlen⟩ := hentry hstate
      by_cases hdone : s.nextToPull ∈ s.completed
      · rcases hcb : cb s.nextToPull with e | _ | b
        · rw [go_succ_raises cb fuel s e hstate hdone hcb]
          refine stable_of_settled cb _ (some e) rfl ?_
          exact core_ignores cb _ _ rfl rfl rfl
            (core_after_raises cb s.nextToPull s e hcore hstate hlen hdone hcb)
        · rw [go_succ_retNone cb fuel s hstate hdone hcb]
          apply ih
          refine ⟨?_, ?_⟩
          · exact core_ignores cb _ _ rfl rfl rfl
              (core_after_cont cb s.nextToPull s hcore hstate hlen hdone (Or.inl hcb))
          · intro _
            refine ⟨hwait, ?_⟩
            simp [hlen]
        · cases b
          · rw [go_succ_falsy cb fuel s hstate hdone hcb]
            refine stable_of_settled cb _ none rfl ?_
            exact core_ignores cb _ _ rfl rfl rfl
              (core_after_falsy cb s.nextToPull s hcore hstate hlen hdone)
          · rw [go_succ_truthy cb fuel s hstate hdone hcb]
            apply ih
            refine ⟨?_, ?_⟩
            · exact core_ignores cb _ _ rfl rfl rfl
                (core_after_cont cb s.nextToPull s hcore hstate hlen hdone (Or.inr hcb))
            · intro _
              refine ⟨hwait, ?_⟩
              simp [hlen]
      · rw [go_succ_notdone cb fuel s hstate hdone]
        refine ⟨core_ignores cb _ _ rfl rfl rfl hcore, ?_⟩
        intro _
        exact ⟨s.nextToPull, rfl, hlen, rfl⟩
    · rw [go_succ_settled cb fuel s v hstate]
      exact stable_of_settled cb s v hstate hcore

theorem run_callbacks_preserves (cb : Nat → CbRes) (n : Nat) (s : RacState)
    (h : RacEntry cb s) : RacStable cb (run_callbacks cb n s) :=
  go_preserves cb (n - s.nextToPull) s h

theorem complete_future_preserves (cb : Nat → CbRes) (n : Nat) (i : Nat) (s : RacState)
    (h : RacStable cb s) : RacStable cb (complete_future cb n i s) := by
  obtain ⟨hcore, hstable⟩ := h
  by_cases hw : s.waitingOn = some i
  · rcases hstate : s.stateResult with _ | v
    · obtain ⟨w, hw2, hlen, hnext⟩ := hstable hstate
      have hwi : w = i := Option.some.inj ((hw2.symm).trans hw)
      rw [hwi] at hlen hnext
      have hcore2 : RacCore cb
          { s with completed := s.completed ++ [i], waitingOn := none } :=
        core_completed_mono cb s i hcore
      have hcompmem : i ∈ s.completed ++ [i] :=
        List.mem_append_right _ (List.mem_singleton.2 rfl)
      rcases hcb : cb i with e | _ | b
      · rw [cf_waiting_raises cb n i s e hw hstate hcb]
        refine stable_of_settled cb _ (some e) rfl ?_
        exact core_ignores cb _ _ rfl rfl rfl
          (core_after_raises cb i _ e hcore2 hstate hlen hcompmem hcb)
      · rw [cf_waiting_retNone cb n i s hw hstate hcb]
        apply run_callbacks_preserves
        refine ⟨?_, ?_⟩
        · exact core_ignores cb _ _ rfl rfl rfl
            (core_after_cont cb i _ hcore2 hstate hlen hcompmem (Or.inl hcb))
        · intro _
          refine ⟨rfl, ?_⟩
          simp [hlen, hnext]
      · cases b
        · rw [cf_waiting_falsy cb n i s hw hstate hcb]
          refine stable_of_settled cb _ none rfl ?_
          exact core_ignores cb _ _ rfl rfl rfl
            (core_after_falsy cb i _ hcore2 hstate hlen hcompmem)
        · rw [cf_waiting_truthy cb n i s hw hstate hcb]
          apply run_callbacks_preserves
          refine ⟨?_, ?_⟩
          · exact core_ignores cb _ _ rfl rfl rfl
              (core_after_cont cb i _ hcore2 hstate hlen hcompmem (Or.inr hcb))
          · intro _
            refine ⟨rfl, ?_⟩
            simp [hlen, hnext]
    · rw [cf_waiting_settled cb n i s v hw hstate]
      refine stable_of_settled cb _ v hstate ?_
      exact core_completed_mono cb s i hcore
  · rw [cf_not_waiting cb n i s hw]
    refine ⟨?_, ?_⟩
    · obtain ⟨ha, hb, hc, hd⟩ := hcore
      refine ⟨ha, ?_, hc, hd⟩
      intro j hj
      exact List.mem_append_left _ (hb j hj)
    · intro hst
      exact hstable hst

theorem foldl_stable (cb : Nat → CbRes) (n : Nat) :
    ∀ (trace : List Nat) (s : RacState), RacStable cb s →
    RacStable cb (trace.foldl (fun s i => complete_future cb n i s) s)
  | [], _, h => h
  | t :: ts, s, h => foldl_stable cb n ts _ (complete_future_preserves cb n t s h)

theorem run_trace_stable (cb : Nat → CbRes) (n : Nat) (trace : List Nat) :
    RacStable cb (run_trace cb n trace) := by
  unfold run_trace
  apply foldl_stable
  apply run_callbacks_preserves
  refine ⟨⟨by simp [racInit], by simp [racInit], by simp [racInit], by simp [racInit]⟩, ?_⟩
  simp [racInit]

theorem rsc_completed_eq (cb : Nat → CbRes) (i : Nat) (s : RacState) :
    (run_single_callback cb i s).2.completed = s.completed := by
  unfold run_single_callback
  split
  · rfl
  · rcases h : cb i with e | _ | b
    · simp [h]
    · simp [h]
    · simp only [h]
      split <;> rfl

theorem go_completed_eq (cb : Nat → CbRes) (fuel : Nat) :
    ∀ s : RacState, (run_callbacks_go cb fuel s).completed = s.completed := by
  induction fuel with
  | zero =>
    intro s
    unfold run_callbacks_go
    split <;> rfl
  | succ fuel ih =>
    intro s
    unfold run_callbacks_go
    split
    · rfl
    · split
      · dsimp only
        split
        · rw [ih, rsc_completed_eq]
        · rw [rsc_completed_eq]
      · rfl

theorem complete_future_completed (cb : Nat → CbRes) (n : Nat) (i : Nat) (s : RacState) :
    (complete_future cb n i s).completed = s.completed ++ [i] := by
  unfold complete_future
  dsimp only
  split
  · split
    · rw [run_callbacks, go_completed_eq, rsc_completed_eq]
    · rw [rsc_completed_eq]
  · rfl

theorem foldl_completed (cb : Nat → CbRes) (n : Nat) :
    ∀ (trace : List Nat) (s : RacState),
    (trace.foldl (fun s i => complete_future cb n i s) s).completed
      = s.completed ++ trace
  | [], s => by simp
  | t :: ts, s => by
    rw [List.foldl_cons, foldl_completed cb n ts _, complete_future_completed]
    simp

theorem run_trace_completed (cb : Nat → CbRes) (n : Nat) (trace : List Nat) :
    (run_trace cb n trace).completed = trace := by
  unfold run_trace
  rw [foldl_completed, run_callbacks, go_completed_eq]
  simp [racInit]

/--
C3, counterexample: two initially pending futures whose callback always
returns None; they complete out of submission order — completion order is
`[1, 0]` — yet the callback is invoked in submission order `[0, 1]`, not
in completion order, and the run resolves.  (This mirrors
`test_run_as_completed_succeeds` in src/tests/test_futures.py, whose
expected result list is in submission order.)
-/
theorem c3_counterexample :
    (run_trace (fun _ => CbRes.retNone) 2 [1, 0]).log = [0, 1] ∧
    (run_trace (fun _ => CbRes.retNone) 2 [1, 0]).log ≠ [1, 0] ∧
    (run_trace (fun _ => CbRes.retNone) 2 [1, 0]).stateResult = some none := by
  decide

/--
C3, amended: for every callback behaviour, every source length and every
completion order, `run_as_completed` invokes its callback in submission
(iterator) order — the invocation log is exactly `[0, 1, …, k-1]` — at
most once per future, never on a later future before an earlier one, and
only on futures that have already completed.
-/
theorem c3_run_as_completed_submission_order (cb : Nat → CbRes) (n : Nat)
    (trace : List Nat) :
    (run_trace cb n trace).log = List.range (run_trace cb n trace).log.length ∧
    (∀ i ∈ (run_trace cb n trace).log, i ∈ trace) := by
  obtain ⟨⟨ha, hb, _, _⟩, _⟩ := run_trace_stable cb n trace
  refine ⟨ha, ?_⟩
  intro i hi
  have hcomp := hb i hi
  rwa [run_trace_completed] at hcomp

/--
C4, counterexample: the callback returns `None` on future 0 — a falsy
value in Python — yet processing does NOT halt: the callback is invoked
again on future 1 (`_run_single_callback` continues when `result is None
or bool(result)`), and the run resolves only after the source is
exhausted.
-/
theorem c4_counterexample :
    (run_trace (fun _ => CbRes.retNone) 2 [0, 1]).log = [0, 1] ∧
    (run_trace (fun _ => CbRes.retNone) 2 [0, 1]).log ≠ [0] ∧
    (run_trace (fun _ => CbRes.retNone) 2 [0, 1]).stateResult = some none := by
  decide

/--
C4, amended: whenever the callback returns a value that is falsy AND not
None (for example False, 0 or an empty string), processing halts: the
state future resolves successfully with None and the callback is never
invoked again on any subsequent future (that invocation is the last one);
a None return is treated as "continue".
-/
theorem c4_falsy_non_none_halts (cb : Nat → CbRes) (n : Nat) (trace : List Nat)
    (i : Nat) (hmem : i ∈ (run_trace cb n trace).log)
    (hcb : cb i = CbRes.retVal false) :
    (run_trace cb n trace).log.getLast? = some i ∧
    (run_trace cb n trace).stateResult = some none := by
  obtain ⟨⟨_, _, _, hd⟩, _⟩ := run_trace_stable cb n trace
  exact hd i hmem hcb

/-- Witness for C4 (amended): one future, callback returns False. -/
theorem c4_falsy_non_none_halts_witness :
    0 ∈ (run_trace (fun _ => CbRes.retVal false) 1 [0]).log ∧
    (run_trace (fun _ => CbRes.retVal false) 1 [0]).log.getLast? = some 0 ∧
    (run_trace (fun _ => CbRes.retVal false) 1 [0]).stateResult = some none :=
  ⟨by decide,
    (c4_falsy_non_none_halts (fun _ => CbRes.retVal false) 1 [0] 0 (by decide) rfl).1,
    (c4_falsy_non_none_halts (fun _ => CbRes.retVal false) 1 [0] 0 (by decide) rfl).2⟩

end Futures

namespace Loops

/-- An event loop object: the module-level `NO_LOOP` singleton or a
client-provided loop identified by id. -/
inductive LoopRef where
  | noLoop
  | client (id : Nat)
deriving Repr, DecidableEq

/-- Calls `set_loop` makes on loop objects, in order. -/
inductive LoopCall where
  | detachCall (l : LoopRef)
  | attachCall (l : LoopRef)
deriving Repr, DecidableEq

/--
`set_loop` (src/vsengine/loops.py, lines 162-178): call `detach()` on the
current loop first; then set `current_loop = loop` and call
`loop.attach()`; if anything in the `try` block raises, set `current_loop
= NO_LOOP` and re-raise.  `detachRaises` and `attachRaises` model whether
the respective loop method raises.  Returns the final `current_loop`, the
loop calls made in order, and whether an exception propagated to the
caller.  (If `detach()` itself raises, the exception propagates before
the `try` block and `current_loop` is left unchanged.)
-/
def set_loop (cur newLoop : LoopRef) (detachRaises attachRaises : Bool) :
    LoopRef × List LoopCall × Bool :=
  if detachRaises then (cur, [LoopCall.detachCall cur], true)
  else if attachRaises then
    (LoopRef.noLoop, [LoopCall.detachCall cur, LoopCall.attachCall newLoop], true)
  else (newLoop, [LoopCall.detachCall cur, LoopCall.attachCall newLoop], false)

/--
C6: `set_loop` always calls the previously current loop's `detach()`
first; when the new loop's `attach()` raises (and `detach()` did not),
the run ends with the no-op loop installed as the current loop and the
exception re-raised; and in every case some loop is installed afterwards
— the new loop, the no-op loop, or (only when `detach()` itself raised)
the old one — never no loop at all.
-/
theorem c6_set_loop_attach_failure (cur newLoop : LoopRef) (dr ar : Bool) :
    (set_loop cur newLoop dr ar).2.1.head? = some (LoopCall.detachCall cur) ∧
    (dr = false → ar = true →
      (set_loop cur newLoop dr ar).1 = LoopRef.noLoop ∧
      (set_loop cur newLoop dr ar).2.2 = true) ∧
    ((set_loop cur newLoop dr ar).1 = newLoop ∨
     (set_loop cur newLoop dr ar).1 = LoopRef.noLoop ∨
     (set_loop cur newLoop dr ar).1 = cur) := by
  cases dr <;> cases ar <;> simp [set_loop]

/-- Witness for C6: switching from loop 0 to loop 1 whose attach raises. -/
theorem c6_set_loop_attach_failure_witness :
    (set_loop (LoopRef.client 0) (LoopRef.client 1) false true).2.1.head? =
      some (LoopCall.detachCall (LoopRef.client 0)) ∧
    (set_loop (LoopRef.client 0) (LoopRef.client 1) false true).1 = LoopRef.noLoop ∧
    (set_loop (LoopRef.client 0) (LoopRef.client 1) false true).2.2 = true :=
  ⟨(c6_set_loop_attach_failure (LoopRef.client 0) (LoopRef.client 1) false true).1,
    ((c6_set_loop_attach_failure (LoopRef.client 0) (LoopRef.client 1) false true).2.1
      rfl rfl).1,
    ((c6_set_loop_attach_failure (LoopRef.client 0) (LoopRef.client 1) false true).2.1
      rfl rfl).2⟩

/-- The observable state of a `concurrent.futures.Future`. -/
inductive FutState (α : Type) where
  | pending
  | resolved (v : α)
  | rejected (e : Nat)
deriving Repr, DecidableEq

/--
`_NoEventLoop.from_thread` (src/vsengine/loops.py, lines 136-149): create
a future, run `func(*args, **kwargs)` inline — before returning — and
settle the future with its outcome: `set_result` on a normal return,
`set_exception` on a raise; then return the future.  `call` is the
behaviour of `func` (the embedding evaluates it inside `from_thread`,
which is the synchronous execution the claim is about).
-/
def noloop_from_thread {α : Type} (call : Futures.CbRun α) : FutState α :=
  match call with
  | .ret v => FutState.resolved v
  | .raises e => FutState.rejected e

/--
C8: with the no-op loop, `from_thread(f)` executes `f` synchronously and
the future it returns is already settled at return — resolved with `f`'s
return value when `f` returned, rejected with `f`'s exception when `f`
raised — and no exception of `f` escapes `from_thread` synchronously
(the embedding is a total function into settled future states).
-/
theorem c8_noloop_from_thread_settled {α : Type} (call : Futures.CbRun α) :
    noloop_from_thread call ≠ FutState.pending ∧
    (∀ v : α, call = Futures.CbRun.ret v →
      noloop_from_thread call = FutState.resolved v) ∧
    (∀ e : Nat, call = Futures.CbRun.raises e →
      noloop_from_thread call = FutState.rejected e) := by
  rcases call with v | e <;> simp [noloop_from_thread]

/-- Witness for C8 at a returning and at a raising call. -/
theorem c8_noloop_from_thread_settled_witness :
    noloop_from_thread (Futures.CbRun.ret 3) = FutState.resolved 3 ∧
    noloop_from_thread (Futures.CbRun.raises 7 : Futures.CbRun Nat) =
      FutState.rejected 7 ∧
    noloop_from_thread (Futures.CbRun.ret 3) ≠ FutState.pending :=
  ⟨(c8_noloop_from_thread_settled (Futures.CbRun.ret 3)).2.1 3 rfl,
    (c8_noloop_from_thread_settled (Futures.CbRun.raises 7 : Futures.CbRun Nat)).2.2 7 rfl,
    (c8_noloop_from_thread_settled (Futures.CbRun.ret 3)).1⟩

end Loops

namespace Policy

/--
The state `_ManagedPolicy.get_current_environment` reads and writes
(src/vsengine/policy.py).  Environments are identified by ids.
`localEnv` is the thread-local inline-section slot
(`self._local.environment`); `store` is the wrapped store's value for the
current context: `none` when no environment is stored, `some wref` when a
weak reference is stored — the weak reference dereferences to `none` once
its environment has been collected (stable for the duration of one locked
call).
-/
structure PolicyState where
  localEnv : Option Nat
  store : Option (Option Nat)
deriving Repr, DecidableEq

/--
The `with self._mutex:` block of `_ManagedPolicy.get_current_environment`
(src/vsengine/policy.py, lines 208-226): read the store; nothing stored —
return None; stored weak reference dereferences to None — warn, clear the
store, return None; dereferenced environment not alive — warn, clear the
store, return None; otherwise return the environment.  Returns (result,
new state, whether a warning was logged).
-/
def locked_store_lookup (alive : Nat → Bool) (s : PolicyState) :
    Option Nat × PolicyState × Bool :=
  match s.store with
  | none => (none, s, false)
  | some wref =>
    match wref with
    | none => (none, { s with store := none }, true)
    | some received =>
      if !alive received then (none, { s with store := none }, true)
      else (some received, s, false)

/--
`_ManagedPolicy.get_current_environment` (src/vsengine/policy.py, lines
198-226): if the thread-local inline-section slot holds an environment
that is alive, return it without consulting the store; otherwise fall
through to the locked store lookup.
-/
def get_current_environment (alive : Nat → Bool) (s : PolicyState) :
    Option Nat × PolicyState × Bool :=
  match s.localEnv with
  | some env =>
    if alive env then (some env, s, false)
    else locked_store_lookup alive s
  | none => locked_store_lookup alive s

/--
C7, counterexample: a call made inside an inline section (the private API
used by `ManagedEnvironment.core` and `.outputs`) while the store holds a
stale reference to a dead environment: the call returns the live
inline-section environment, does NOT clear the store entry and does NOT
log a warning — the store path is never reached.
-/
theorem c7_counterexample :
    (get_current_environment (fun _ => true)
      { localEnv := some 0, store := some none }).1 = some 0 ∧
    (get_current_environment (fun _ => true)
      { localEnv := some 0, store := some none }).2.1.store = some none ∧
    (get_current_environment (fun _ => true)
      { localEnv := some 0, store := some none }).2.2 = false := by
  decide

/--
C7, amended: for every call in which no live inline-section environment
overrides the lookup, a store holding a stale reference to a dead
environment — a dead weak reference, or a reference to an environment
that is no longer alive — is cleared (set to None) with a warning logged,
and no environment is returned instead of an error being raised.  In all
cases, inline sections included, the policy never returns a dead
environment.
-/
theorem c7_policy_clears_dead_environment (alive : Nat → Bool) (s : PolicyState)
    (hlocal : ∀ env, s.localEnv = some env → alive env = false) :
    (s.store = some none →
      (get_current_environment alive s).1 = none ∧
      (get_current_environment alive s).2.1.store = none ∧
      (get_current_environment alive s).2.2 = true) ∧
    (∀ env, s.store = some (some env) → alive env = false →
      (get_current_environment alive s).1 = none ∧
      (get_current_environment alive s).2.1.store = none ∧
      (get_current_environment alive s).2.2 = true) ∧
    (∀ (t : PolicyState) (env : Nat),
      (get_current_environment alive t).1 = some env → alive env = true) := by
  refine ⟨?_, ?_, ?_⟩
  · intro hstore
    rcases hl : s.localEnv with _ | env
    · simp [get_current_environment, locked_store_lookup, hl, hstore]
    · have := hlocal env hl
      simp [get_current_environment, locked_store_lookup, hl, hstore, this]
  · intro env hstore hdead
    rcases hl : s.localEnv with _ | env'
    · simp [get_current_environment, locked_store_lookup, hl, hstore, hdead]
    · have := hlocal env' hl
      simp [get_current_environment, locked_store_lookup, hl, hstore, hdead, this]
  · intro t env
    rcases hl : t.localEnv with _ | env'
    · rcases hstore : t.store with _ | wref
      · simp [get_current_environment, locked_store_lookup, hl, hstore]
      · rcases wref with _ | received
        · simp [get_current_environment, locked_store_lookup, hl, hstore]
        · by_cases halive : alive received = true
          · simp [get_current_environment, locked_store_lookup, hl, hstore, halive]
            intro h; rw [← h]; exact halive
          · simp [get_current_environment, locked_store_lookup, hl, hstore,
              Bool.eq_false_iff.2 halive]
    · by_cases halive : alive env' = true
      · simp [get_current_environment, hl, halive]
        intro h; rw [← h]; exact halive
      · rcases hstore : t.store with _ | wref
        · simp [get_current_environment, locked_store_lookup, hl, hstore,
            Bool.eq_false_iff.2 halive]
        · rcases wref with _ | received
          · simp [get_current_environment, locked_store_lookup, hl, hstore,
              Bool.eq_false_iff.2 halive]
          · by_cases halive2 : alive received = true
            · simp [get_current_environment, locked_store_lookup, hl, hstore,
                Bool.eq_false_iff.2 halive, halive2]
              intro h; rw [← h]; exact halive2
            · simp [get_current_environment, locked_store_lookup, hl, hstore,
                Bool.eq_false_iff.2 halive, Bool.eq_false_iff.2 halive2]

/-- Witness for C7 (amended): no inline section, store holds a dead weak
reference. -/
theorem c7_policy_clears_dead_environment_witness :
    (get_current_environment (fun _ => false)
      { localEnv := none, store := some none }).1 = none ∧
    (get_current_environment (fun _ => false)
      { localEnv := none, store := some none }).2.1.store = none ∧
    (get_current_environment (fun _ => false)
      { localEnv := none, store := some none }).2.2 = true :=
  (c7_policy_clears_dead_environment (fun _ => false)
    { localEnv := none, store := some none } (by intro env h; cases h)).1 rfl

/-- The calls `ManagedEnvironment.dispose` makes, in order: hand
(environment data, core) to the hospice, then destroy the environment
through the policy API. -/
inductive DisposeAct where
  | hospice_admission (d : Nat)
  | destroy_environment (d : Nat)
deriving Repr, DecidableEq

/-- A `ManagedEnvironment` wrapper: `data` is `self._data`, which is set
to None on disposal; `disposed` is the property `self._data is None`
(src/vsengine/policy.py, lines 322-327). -/
structure ManagedEnvironment where
  data : Option Nat
deriving Repr, DecidableEq

/--
`ManagedEnvironment.dispose` (src/vsengine/policy.py, lines 313-320): if
`self.disposed` — `_data` is None — return immediately; otherwise admit
`(self._data, self.core)` to the hospice, destroy the environment, and
set `_data = None`.  Returns the new wrapper state and the actions
performed.
-/
def dispose (m : ManagedEnvironment) : ManagedEnvironment × List DisposeAct :=
  match m.data with
  | none => (m, [])
  | some d =>
    ({ data := none },
      [DisposeAct.hospice_admission d, DisposeAct.destroy_environment d])

/--
C9: `dispose` is idempotent — the first call on an undisposed wrapper
admits the core to the hospice and destroys the environment, leaving the
wrapper disposed; calling `dispose` again on the result performs no
action at all (no second hospice admission, no second destroy) and leaves
the state unchanged.
-/
theorem c9_dispose_idempotent (m : ManagedEnvironment) (d : Nat) :
    (dispose (dispose m).1).1 = (dispose m).1 ∧
    (dispose (dispose m).1).2 = [] ∧
    ((dispose m).1).data = none ∧
    (m.data = some d →
      dispose m = ({ data := none },
        [DisposeAct.hospice_admission d, DisposeAct.destroy_environment d])) := by
  rcases m with ⟨_ | d'⟩
  · simp [dispose]
  · refine ⟨rfl, rfl, rfl, ?_⟩
    intro h
    rw [Option.some.inj h]
    rfl

/-- Witness for C9 at a concrete undisposed environment. -/
theorem c9_dispose_idempotent_witness :
    (ManagedEnvironment.mk (some 4)).data = some 4 ∧
    dispose (ManagedEnvironment.mk (some 4)) = ({ data := none },
      [DisposeAct.hospice_admission 4, DisposeAct.destroy_environment 4]) ∧
    (dispose (dispose (ManagedEnvironment.mk (some 4))).1).2 = [] :=
  ⟨rfl, (c9_dispose_idempotent (ManagedEnvironment.mk (some 4)) 4).2.2.2 rfl,
    (c9_dispose_idempotent (ManagedEnvironment.mk (some 4)) 4).2.1⟩

end Policy

end VSEngine
